import Mathlib

/-! ## Definitions: shallow embedding of the pool, the abuse guard and the sharing broker -/

/-- One credential record, the fields of a `google_tokens` row that the pool's
selection, quarantine and sweep logic reads or writes (`loadTokens` mapping,
lines 40-56).  The secrets (`access_token`, `expires_in`, `timestamp`) are
identified by the stable `refresh_token` key the source uses to look records
up; refresh only rewrites the secrets, never identity or eligibility. -/
structure Token where
  refresh_token : String
  enable : Bool
  disabledUntil : Option Nat
  quotaExhausted : Bool
deriving DecidableEq

/-- The `TokenManager` state the claims touch: the loaded token list and the
round-robin cursor `currentTokenIndex`. -/
structure PoolState where
  tokens : List Token
  currentTokenIndex : Nat
deriving DecidableEq

/-- `isTokenDisabledByQuota` (line 184): `token.disabledUntil && Date.now() <
token.disabledUntil`.  A missing (`null`) field is falsy; a numeric `0` is
also falsy in JS, and `now < 0` is false anyway, so `Option Nat` with the
strict comparison is exact. -/
def isTokenDisabledByQuota (now : Nat) (t : Token) : Bool :=
  match t.disabledUntil with
  | none => false
  | some d => decide (now < d)

/-- The eligibility filter of `getNextToken` (line 416): `token.enable !==
false && !this.isTokenDisabledByQuota(token)`. -/
def eligibleToken (now : Nat) (t : Token) : Bool :=
  t.enable && !(isTokenDisabledByQuota now t)

/-- `loadTokens` reads `WHERE user_id IS NULL AND enabled = 1` (line 36):
the in-memory working set is the enabled tokens of the store. -/
def loadedTokens (s : PoolState) : List Token :=
  s.tokens.filter (fun t => t.enable)

/-- Result of `getNextToken`: either a selected credential or one of the two
pool-exhaustion throws (`'No tokens available.'` at line 412,
`'No enabled tokens available.'` at line 421).  Both throws fire when the
eligible set is empty, which the spec files under `PoolExhausted`. -/
inductive GetNextResult where
  | ok (t : Token)
  | poolExhausted (msg : String)
deriving DecidableEq

/-- `getNextToken` (lines 408-445).  The cached `loadTokens()` call is a
no-op within the claims' "no changes between calls" window; the conditional
`refreshToken` only rewrites the token's secret fields in place and never
changes which credential is returned, so it is not modelled.  The index
reset mirrors lines 429-431: increment, then reset to 0 once the counter
exceeds 10000. -/
def getNextToken (now : Nat) (s : PoolState) : GetNextResult × PoolState :=
  let mem := loadedTokens s
  if mem.length = 0 then (.poolExhausted "No tokens available.", s)
  else
    match mem.filter (fun t => !(isTokenDisabledByQuota now t)) with
    | [] => (.poolExhausted "No enabled tokens available.", s)
    | a :: rest =>
      let avail := a :: rest
      let token := avail.get ⟨s.currentTokenIndex % avail.length, Nat.mod_lt _ (Nat.succ_pos _)⟩
      let idx := s.currentTokenIndex + 1
      (.ok token, { s with currentTokenIndex := if 10000 < idx then 0 else idx })

/-- `n` consecutive `getNextToken` calls with no external state changes. -/
def getNextTokens (now : Nat) : Nat → PoolState → List GetNextResult × PoolState
  | 0, s => ([], s)
  | n + 1, s =>
    let (r, s') := getNextToken now s
    let (rs, s'') := getNextTokens now n s'
    (r :: rs, s'')

/-- `disableTokenUntil` (lines 193-200): set the quarantine instant and the
quota-exhausted flag on the record. -/
def disableTokenUntil (resetTime : Nat) (t : Token) : Token :=
  { t with disabledUntil := some resetTime, quotaExhausted := true }

/-- Pool-level `disableTokenUntil`: the object handed in is the in-memory
record itself (identified by its `refresh_token`); it is mutated and
persisted, never removed from the set. -/
def poolDisableTokenUntil (s : PoolState) (rt : String) (resetTime : Nat) : PoolState :=
  { s with tokens := s.tokens.map (fun t =>
      if t.refresh_token = rt then disableTokenUntil resetTime t else t) }

/-- `disableToken` (lines 205-212): clear `enable`, `delete` both quarantine
fields, persist (the forced reload then reads the same store state back). -/
def disableTokenPerm (t : Token) : Token :=
  { t with enable := false, disabledUntil := none, quotaExhausted := false }

/-- Pool-level permanent disable. -/
def poolDisableToken (s : PoolState) (rt : String) : PoolState :=
  { s with tokens := s.tokens.map (fun t =>
      if t.refresh_token = rt then disableTokenPerm t else t) }

/-- One `startQuotaResetCheck` sweep step on a single row (lines 222-231):
`SET disabled_until = NULL, quota_exhausted = 0 WHERE disabled_until IS NOT
NULL AND disabled_until <= now`. -/
def sweepToken (now : Nat) (t : Token) : Token :=
  match t.disabledUntil with
  | none => t
  | some d => if d ≤ now then { t with disabledUntil := none, quotaExhausted := false } else t

/-- One `startQuotaResetCheck` sweep over the pool. -/
def quotaResetSweep (now : Nat) (s : PoolState) : PoolState :=
  { s with tokens := s.tokens.map (sweepToken now) }

/-- `setUTCDate(getUTCDate()+1); setUTCHours(0,0,0,0)` (lines 254-256): the
first UTC midnight strictly after `now`. -/
def nextUtcMidnight (now : Nat) : Nat :=
  (now / 86400000 + 1) * 86400000

/-- An upstream error as `handleRequestError` inspects it: an optional
`statusCode` and an optional `message`. -/
structure UpErr where
  statusCode : Option Nat
  message : Option String
deriving DecidableEq

/-- `error.message && error.message.includes('quota')` (line 250).  A string
contains `"quota"` exactly when splitting on it yields more than one part;
the empty string (falsy in JS) splits to a single part. -/
def msgIncludesQuota : Option String → Bool
  | none => false
  | some s => (s.splitOn "quota").length != 1

/-- What `handleRequestError` hands back to its caller: a replacement
credential from the pool (the result of the internal `getNextToken` call)
or the original error re-thrown. -/
inductive HandleResult where
  | replacement (r : GetNextResult)
  | propagate (e : UpErr)
deriving DecidableEq

/-- `handleRequestError` (lines 248-283), checked in source order: quota
(status 429 or a `quota` message) quarantines until the next UTC midnight
and returns `getNextToken`; 403 and 400 permanently disable and return
`getNextToken`; anything else is re-thrown and touches no state. -/
def handleRequestError (now : Nat) (e : UpErr) (rt : String) (s : PoolState) :
    HandleResult × PoolState :=
  if e.statusCode = some 429 ∨ msgIncludesQuota e.message = true then
    let s' := poolDisableTokenUntil s rt (nextUtcMidnight now)
    let r := getNextToken now s'
    (.replacement r.1, r.2)
  else if e.statusCode = some 403 then
    let s' := poolDisableToken s rt
    let r := getNextToken now s'
    (.replacement r.1, r.2)
  else if e.statusCode = some 400 then
    let s' := poolDisableToken s rt
    let r := getNextToken now s'
    (.replacement r.1, r.2)
  else (.propagate e, s)

def tokA : Token := ⟨"a", true, none, false⟩

def tokB : Token := ⟨"b", true, none, false⟩

/-- A reachable pool state: the cursor sits at the wrap bound (it reaches
10000 after ten thousand calls and is only reset once it would exceed it). -/
def poolAtWrap : PoolState := ⟨[tokA, tokB], 10000⟩

def tokOff : Token := ⟨"off", false, none, false⟩

def tokQuarantined : Token := ⟨"q", true, some 50, false⟩

def poolC4 : PoolState := ⟨[tokA, tokB], 0⟩

/-- A `share_bans` row.  Schema (file header comment, line 11): `user_id
(PK), ban_until, reason, created` — there is no ban-count column. -/
structure BanRow where
  user_id : Nat
  ban_until : Nat
  reason : String
  created : Nat
deriving DecidableEq

/-- A `share_usage` row: composite primary key `(user_id, timestamp)`. -/
structure UsageRow where
  user_id : Nat
  timestamp : Nat
deriving DecidableEq

/-- A `share_blacklist` row: `owner_id, token_index, blocked_user_id,
timestamp`. -/
structure BlacklistRow where
  owner_id : Nat
  token_index : Nat
  blocked_user_id : Nat
  timestamp : Nat
deriving DecidableEq

/-- The three sharing tables. -/
structure ShareDB where
  share_bans : List BanRow
  share_usage : List UsageRow
  share_blacklist : List BlacklistRow
deriving DecidableEq

/-- `BAN_DURATIONS` (lines 17-24), in milliseconds. -/
def BAN_DURATIONS : List Nat :=
  [1 * 24 * 60 * 60 * 1000,
   3 * 24 * 60 * 60 * 1000,
   7 * 24 * 60 * 60 * 1000,
   14 * 24 * 60 * 60 * 1000,
   30 * 24 * 60 * 60 * 1000,
   90 * 24 * 60 * 60 * 1000]

/-- `USAGE_THRESHOLD` (line 27). -/
def USAGE_THRESHOLD : Nat := 50

/-- `SELECT * FROM share_bans WHERE user_id = ?` (single row: PK). -/
def findBan (db : ShareDB) (userId : Nat) : Option BanRow :=
  db.share_bans.find? (fun b => b.user_id == userId)

/-- `DELETE FROM share_bans WHERE user_id = ?`. -/
def deleteBan (db : ShareDB) (userId : Nat) : ShareDB :=
  { db with share_bans := db.share_bans.filter (fun b => !(b.user_id == userId)) }

/-- What `isUserBanned` returns.  `banCount` is the hard-coded `1` of line
50; `remainingTime` is `ban_until - Date.now()` computed in the banned
branch. -/
structure BanStatus where
  banned : Bool
  banUntil : Option Nat
  banCount : Option Nat
  reason : Option String
  remainingTime : Option Int
deriving DecidableEq

/-- `isUserBanned` (lines 32-63).  The expiry test is `ban.ban_until &&
Date.now() > ban.ban_until` — a zero instant is falsy, and the comparison is
strict, so a ban whose instant equals the current clock is still reported
active with zero remaining time. -/
def isUserBanned (now : Nat) (db : ShareDB) (userId : Nat) : BanStatus × ShareDB :=
  match findBan db userId with
  | none => (⟨false, none, none, none, none⟩, db)
  | some ban =>
    if ban.ban_until != 0 && decide (ban.ban_until < now) then
      (⟨false, none, none, none, none⟩, deleteBan db userId)
    else
      (⟨true, some ban.ban_until, some 1, some ban.reason,
        some ((ban.ban_until : Int) - (now : Int))⟩, db)

/-- What `banUserFromSharing` returns. -/
structure BanOut where
  banCount : Nat
  banUntil : Nat
  durationDays : Nat
deriving DecidableEq

/-- `Math.round(a / b)` on non-negative numbers: `⌊a/b + 1/2⌋`. -/
def mathRoundDiv (a b : Nat) : Nat :=
  (2 * a + b) / (2 * b)

/-- `banUserFromSharing` (lines 66-106).  The source computes
`(existing.banCount || 0) + 1`, but `existing` is a `share_bans` row, whose
columns are `user_id, ban_until, reason, created` only (and the `INSERT` at
line 88 stores only those four), so `existing.banCount` is `undefined` and
the expression evaluates to `0 + 1 = 1` whenever a previous ban exists, and
to `1` when none does. -/
def banUserFromSharing (now : Nat) (db : ShareDB) (userId : Nat) (reason : String) :
    BanOut × ShareDB :=
  let existing := findBan db userId
  let banCount : Nat := match existing with
    | some _ => 0 + 1
    | none => 1
  let durationIndex := min (banCount - 1) (BAN_DURATIONS.length - 1)
  let duration := BAN_DURATIONS.getD durationIndex 0
  let banUntil := now + duration
  let db1 := match existing with
    | some _ => deleteBan db userId
    | none => db
  let db2 := { db1 with share_bans := db1.share_bans ++ [⟨userId, banUntil, reason, now⟩] }
  (⟨banCount, banUntil, mathRoundDiv duration (24 * 60 * 60 * 1000)⟩, db2)

/-- `recordShareUsage` (lines 126-157): `INSERT OR IGNORE` of `(userId,
now)` (the composite PK silently drops a duplicate), then `DELETE FROM
share_usage WHERE timestamp < now - 30 days` — note: no `user_id` filter on
the delete — then a count of the calling user's samples for the current
day. -/
def recordShareUsage (now : Nat) (db : ShareDB) (userId : Nat) : Nat × ShareDB :=
  let inserted :=
    if db.share_usage.any (fun r => r.user_id == userId && r.timestamp == now) then
      db.share_usage
    else db.share_usage ++ [⟨userId, now⟩]
  let thirtyDaysAgo := now - 30 * 24 * 60 * 60 * 1000
  let cleaned := inserted.filter (fun r => !(decide (r.timestamp < thirtyDaysAgo)))
  let todayStart := (now / 86400000) * 86400000
  let todayEnd := todayStart + 24 * 60 * 60 * 1000
  let count := (cleaned.filter (fun r =>
    r.user_id == userId && decide (todayStart ≤ r.timestamp) &&
      decide (r.timestamp < todayEnd))).length
  (count, { db with share_usage := cleaned })

/-- `new Date(ts).toDateString()` bucketing, modelled as the day number. -/
def dayOf (ts : Nat) : Nat := ts / 86400000

/-- `getUserAverageUsage` (lines 160-189): group the user's samples by
calendar day, sum the per-day counts and divide (with `Math.round`) by the
number of distinct days.  Summing the per-day bucket counts of
`dailyUsage` yields exactly the number of retained samples, and
`Object.keys(dailyUsage).length` is the number of distinct days, so the
dictionary is embedded by those two totals. -/
def getUserAverageUsage (db : ShareDB) (userId : Nat) : Nat :=
  let records := db.share_usage.filter (fun r => r.user_id == userId)
  if records.length = 0 then 0
  else
    let days := (records.map (fun r => dayOf r.timestamp)).dedup
    if days.length = 0 then 0
    else mathRoundDiv records.length days.length

/-- Result of `checkAndBanAbuser`. -/
inductive AbuseResult where
  | bannedNow (avgUsage : Nat) (out : BanOut)
  | notBanned (avgUsage : Nat)
deriving DecidableEq

/-- `true` iff the check issued a ban. -/
def AbuseResult.didBan : AbuseResult → Bool
  | .bannedNow _ _ => true
  | .notBanned _ => false

/-- `checkAndBanAbuser` (lines 192-210): ban exactly when the average
exceeds `USAGE_THRESHOLD`. -/
def checkAndBanAbuser (now : Nat) (db : ShareDB) (userId : Nat) : AbuseResult × ShareDB :=
  let avgUsage := getUserAverageUsage db userId
  if USAGE_THRESHOLD < avgUsage then
    let r := banUserFromSharing now db userId
      ("average usage too high: " ++ toString avgUsage ++ " per day")
    (.bannedNow avgUsage r.1, r.2)
  else (.notBanned avgUsage, db)

/-- `isUserBlacklisted` (lines 259-271): membership of `(ownerId,
tokenIndex, userId)` in `share_blacklist`. -/
def isUserBlacklisted (db : ShareDB) (ownerId tokenIndex userId : Nat) : Bool :=
  db.share_blacklist.any (fun r =>
    r.owner_id == ownerId && r.token_index == tokenIndex && r.blocked_user_id == userId)

/-- A `google_tokens` row as the sharing broker reads it: identity, owner,
enablement and the sharing fields.  `last_reset_date` stores the
`toDateString()` calendar day, modelled as a day number.  Rows are kept in
`id` order (autoincrement insertion order), which is what `ORDER BY id`
returns. -/
structure GToken where
  id : Nat
  user_id : Option Nat
  enabled : Bool
  is_shared : Bool
  daily_limit : Nat
  usage_today : Nat
  last_reset_date : Nat
deriving DecidableEq

/-- A `users` row. -/
structure UserRow where
  id : Nat
  enabled : Bool
deriving DecidableEq

/-- The store as `user_manager.js` sees it: users, google tokens, and the
three sharing tables. -/
structure AppDB where
  users : List UserRow
  google_tokens : List GToken
  share : ShareDB
deriving DecidableEq

/-- `SELECT id FROM google_tokens WHERE user_id = ? ORDER BY id` (rows are
stored in id order). -/
def userTokens (db : AppDB) (userId : Nat) : List GToken :=
  db.google_tokens.filter (fun t => t.user_id == some userId)

/-- `findIndex(t => t.id === token.id)` over the owner's token list: the
positional index used as the blacklist key. -/
def tokenIndexOf (db : AppDB) (userId tokenId : Nat) : Nat :=
  (userTokens db userId).findIdx (fun t => t.id == tokenId)

/-- `UPDATE google_tokens SET ... WHERE id = ?`. -/
def updateGToken (db : AppDB) (tokenId : Nat) (f : GToken → GToken) : AppDB :=
  { db with google_tokens := db.google_tokens.map (fun t =>
      if t.id == tokenId then f t else t) }

/-- `SELECT * FROM google_tokens WHERE id = ?`. -/
def findTok (db : AppDB) (tokenId : Nat) : Option GToken :=
  db.google_tokens.find? (fun t => t.id == tokenId)

/-- `Math.max(1, Math.min(10000, parseInt(dailyLimit)))` (line 872). -/
def clampLimit (v : Int) : Nat :=
  (max 1 (min 10000 v)).toNat

/-- The `sharingSettings` argument of `updateTokenSharing`. -/
structure SharingSettings where
  isShared : Option Bool
  dailyLimit : Option Int
deriving DecidableEq

/-- The `token` payload `updateTokenSharing` returns. -/
structure SharingResult where
  isShared : Bool
  dailyLimit : Nat
deriving DecidableEq

/-- `updateTokenSharing` (lines 843-900): look up the user, resolve the
positional token index against the owner's id-ordered token list, apply the
requested `is_shared` / clamped `daily_limit` column updates, and return the
updated sharing fields. -/
def updateTokenSharing (db : AppDB) (userId tokenIndex : Nat) (st : SharingSettings) :
    Except String (SharingResult × AppDB) :=
  match db.users.find? (fun u => u.id == userId) with
  | none => .error "user does not exist"
  | some _ =>
    let toks := userTokens db userId
    if h : tokenIndex < toks.length then
      let tokenId := (toks.get ⟨tokenIndex, h⟩).id
      let app1 := match st.isShared with
        | some b => updateGToken db tokenId (fun t => { t with is_shared := b })
        | none => db
      let app2 := match st.dailyLimit with
        | some v => updateGToken app1 tokenId (fun t => { t with daily_limit := clampLimit v })
        | none => app1
      match findTok app2 tokenId with
      | some tok => .ok (⟨tok.is_shared, tok.daily_limit⟩, app2)
      | none => .error "token does not exist"
    else .error "token does not exist"

/-- The join filter shared by `getAllSharedTokens` and
`getRandomSharedToken`: `is_shared = 1 AND enabled = 1` joined against an
enabled owner row (`JOIN users ON gt.user_id = u.id WHERE u.enabled = 1`;
user ids are a primary key, so the join multiplicity is one). -/
def sharedEnabled (db : AppDB) : List GToken :=
  db.google_tokens.filter (fun t =>
    t.is_shared && t.enabled &&
      db.users.any (fun u => (some u.id == t.user_id) && u.enabled))

/-- The lazy daily reset both selection paths apply to their local copy of a
row whose `last_reset_date` is not today. -/
def lazyReset (today : Nat) (t : GToken) : GToken :=
  if t.last_reset_date != today then { t with usage_today := 0, last_reset_date := today } else t

/-- The daily-reset column update (`SET usage_today = 0, last_reset_date =
? WHERE id = ?`). -/
def resetFields (today : Nat) (t : GToken) : GToken :=
  { t with usage_today := 0, last_reset_date := today }

/-- One `listShared` summary entry (lines 925-947): the owner, the
positional index, the limits and `remainingToday = daily_limit -
usage_today`; the nested `token` payload is identified by `tokenId`. -/
structure SharedSummary where
  userId : Nat
  tokenIndex : Nat
  tokenId : Nat
  dailyLimit : Nat
  usageToday : Nat
  remainingToday : Int
deriving DecidableEq

/-- The `for (const token of tokens)` body of `getAllSharedTokens` (lines
915-947): lazily reset each stale row (in the store and in the local
snapshot), recompute the owner-relative index from the live store, and emit
the summary. -/
def getAllSharedTokensLoop (today : Nat) :
    List GToken → AppDB → List SharedSummary × AppDB
  | [], db => ([], db)
  | t :: ts, db =>
    let t' := lazyReset today t
    let db' := if t.last_reset_date != today then updateGToken db t.id (resetFields today) else db
    let idx := tokenIndexOf db' (t.user_id.getD 0) t.id
    let entry : SharedSummary :=
      ⟨t.user_id.getD 0, idx, t.id, t'.daily_limit, t'.usage_today,
       (t'.daily_limit : Int) - (t'.usage_today : Int)⟩
    let r := getAllSharedTokensLoop today ts db'
    (entry :: r.1, r.2)

/-- `getAllSharedTokens` (lines 903-959).  The join guarantees every
enumerated row has an owner, so `t.user_id.getD 0` in the loop only ever
reads a present owner id. -/
def getAllSharedTokens (today : Nat) (db : AppDB) : List SharedSummary × AppDB :=
  getAllSharedTokensLoop today (sharedEnabled db) db

/-- The per-candidate blacklist test of `getRandomSharedToken` (lines
988-999): resolve the owner-relative index from the live store and check
`share_blacklist` membership for the caller. -/
def skipBlacklisted (db : AppDB) (callerId : Option Nat) (t : GToken) : Bool :=
  match callerId with
  | some cid =>
    isUserBlacklisted db.share (t.user_id.getD 0) (tokenIndexOf db (t.user_id.getD 0) t.id) cid
  | none => false

/-- The candidate loop of `getRandomSharedToken` (lines 986-1013):
blacklisted rows are skipped before any reset; remaining rows are lazily
reset and kept when `usage_today < daily_limit`. -/
def selectLoop (callerId : Option Nat) (today : Nat) :
    List GToken → AppDB → List GToken × AppDB
  | [], db => ([], db)
  | t :: ts, db =>
    if skipBlacklisted db callerId t then selectLoop callerId today ts db
    else
      let t' := lazyReset today t
      let db' := if t.last_reset_date != today then updateGToken db t.id (resetFields today) else db
      let r := selectLoop callerId today ts db'
      (if t'.usage_today < t'.daily_limit then t' :: r.1 else r.1, r.2)

/-- Result of `getRandomSharedToken`: the ban short-circuit, `null` (no
candidate), or a selected credential (identified by row id and owner; the
returned `usageToday` is the post-increment counter). -/
inductive ShareSelect where
  | bannedResult (banUntil : Option Nat) (remainingTime : Option Int) (reason : Option String)
  | noToken
  | okToken (tokenId ownerId : Nat) (usageToday dailyLimit : Nat)
deriving DecidableEq

/-- The selection phase of `getRandomSharedToken` after the ban gate (lines
978-1041): build the candidate list, pick `Math.floor(Math.random() * n)` —
modelled by the oracle `pick` reduced modulo the candidate count, which
ranges over exactly the indices the source can draw — increment the
winner's `usage_today`, and (when a caller is identified) record a usage
sample and run the triggered abuse check. -/
def selectPhase (now pick : Nat) (callerId : Option Nat) (db : AppDB) :
    ShareSelect × AppDB :=
  let today := dayOf now
  let r := selectLoop callerId today (sharedEnabled db) db
  match r.1 with
  | [] => (.noToken, r.2)
  | a :: rest =>
    let avail := a :: rest
    let selected := avail.get ⟨pick % avail.length, Nat.mod_lt _ (Nat.succ_pos _)⟩
    let db2 := updateGToken r.2 selected.id (fun t => { t with usage_today := t.usage_today + 1 })
    let db3 := match callerId with
      | some cid =>
        let u := recordShareUsage now db2.share cid
        let c := checkAndBanAbuser now u.2 cid
        { db2 with share := c.2 }
      | none => db2
    (.okToken selected.id (selected.user_id.getD 0) (selected.usage_today + 1)
      selected.daily_limit, db3)

/-- `getRandomSharedToken` (lines 962-1056): the ban gate runs first (and
may lazily delete an expired ban), then the selection phase. -/
def getRandomSharedToken (now pick : Nat) (callerId : Option Nat) (db : AppDB) :
    ShareSelect × AppDB :=
  match callerId with
  | some cid =>
    let b := isUserBanned now db.share cid
    let dbB := { db with share := b.2 }
    if b.1.banned then (.bannedResult b.1.banUntil b.1.remainingTime b.1.reason, dbB)
    else selectPhase now pick callerId dbB
  | none => selectPhase now pick callerId db

def banDbC6 : ShareDB := ⟨[⟨7, 1000, "abuse", 0⟩], [], []⟩

def banDbC7 : ShareDB := ⟨[⟨1, 1000, "misuse", 0⟩], [], []⟩

def appDbC7 : AppDB := ⟨[], [], banDbC7⟩

def usageDbC8 : ShareDB :=
  ⟨[], (List.range 51).map (fun k => ⟨1, k⟩) ++
       (List.range 51).map (fun k => ⟨1, 86400000 + k⟩), []⟩

def usageDbC8b : ShareDB :=
  ⟨[], (List.range 50).map (fun k => ⟨1, k⟩) ++
       (List.range 50).map (fun k => ⟨1, 86400000 + k⟩), []⟩

/-! ## C10: usage-sample prune -/

def usageDbC10 : ShareDB := ⟨[], [⟨2, 0⟩], []⟩

def usageDbC10b : ShareDB := ⟨[], [⟨1, 2590000000⟩, ⟨2, 0⟩, ⟨2, 2592000000⟩], []⟩

def dbC9 : AppDB :=
  ⟨[⟨1, true⟩],
   [⟨10, some 1, true, true, 5, 0, 0⟩, ⟨11, some 1, true, false, 100, 0, 0⟩],
   ⟨[], [], [⟨1, 0, 2, 0⟩]⟩⟩

def cW : GToken := ⟨10, some 1, true, false, 5, 0, 0⟩

def dbW : AppDB := ⟨[⟨1, true⟩], [cW], ⟨[], [], []⟩⟩

def db1W : AppDB :=
  updateGToken (updateGToken dbW 10 (fun t => { t with is_shared := true })) 10
    (fun t => { t with daily_limit := 20 })

/-! ## Theorems: the claims and their supporting lemmas -/

/-- When every loaded token is eligible, one `getNextToken` call picks the
cursor-mod-size entry and advances (and possibly wraps) the cursor. -/
theorem getNextToken_all_eligible (now : Nat) (a : Token) (rest : List Token) (c : Nat)
    (hall : ∀ t ∈ a :: rest, eligibleToken now t = true) :
    getNextToken now ⟨a :: rest, c⟩ =
      (.ok ((a :: rest).get ⟨c % (a :: rest).length, Nat.mod_lt _ (Nat.succ_pos _)⟩),
       ⟨a :: rest, if 10000 < c + 1 then 0 else c + 1⟩) := by
  have hload : loadedTokens ⟨a :: rest, c⟩ = a :: rest := by
    apply List.filter_eq_self.2
    intro t ht
    have h := hall t ht
    simp only [eligibleToken, Bool.and_eq_true] at h
    exact h.1
  have hfilter : (a :: rest).filter (fun t => !(isTokenDisabledByQuota now t)) = a :: rest := by
    apply List.filter_eq_self.2
    intro t ht
    have h := hall t ht
    simp only [eligibleToken, Bool.and_eq_true] at h
    exact h.2
  unfold getNextToken
  simp only [hload, hfilter, List.length_cons]
  rfl

/-- Index congruence for safe list access. -/
theorem get_idx_congr (l : List Token) (i j : Nat) (hi : i < l.length) (hj : j < l.length)
    (h : i = j) : l.get ⟨i, hi⟩ = l.get ⟨j, hj⟩ := by
  subst h
  rfl

/-- The tokens selected by `n` wrap-free consecutive calls, indexed from the
starting cursor. -/
theorem getNextTokens_all_eligible (now : Nat) (a : Token) (rest : List Token)
    (hall : ∀ t ∈ a :: rest, eligibleToken now t = true) (n : Nat) :
    ∀ c : Nat, c + n ≤ 10001 →
      (getNextTokens now n ⟨a :: rest, c⟩).1 =
        (List.range n).map (fun k =>
          GetNextResult.ok ((a :: rest).get
            ⟨(c + k) % (a :: rest).length, Nat.mod_lt _ (Nat.succ_pos _)⟩)) := by
  induction n with
  | zero => intro c _; simp [getNextTokens]
  | succ m ih =>
    intro c hc
    rw [getNextTokens, getNextToken_all_eligible now a rest c hall]
    cases m with
    | zero =>
      simp [getNextTokens, List.range_succ]
    | succ m' =>
      have hlt : ¬ 10000 < c + 1 := by omega
      have hrec := ih (c + 1) (by omega)
      rw [if_neg hlt]
      show GetNextResult.ok ((a :: rest).get
            ⟨c % (a :: rest).length, Nat.mod_lt _ (Nat.succ_pos _)⟩) ::
          (getNextTokens now (m' + 1) ⟨a :: rest, c + 1⟩).1 = _
      rw [List.range_succ_eq_map, List.map_cons, List.map_map, hrec]
      refine congrArg₂ List.cons ?_ ?_
      · exact congrArg GetNextResult.ok (get_idx_congr _ _ _ _ _ (by congr 1 <;> omega))
      · apply List.map_congr_left
        intro k _
        simp only [Function.comp_apply]
        exact congrArg GetNextResult.ok (get_idx_congr _ _ _ _ _ (by congr 1 <;> omega))

/-- The wrap-free run is exactly a rotation of the token list. -/
theorem range_map_get_eq_rotate (l : List Token) (c : Nat) (h : 0 < l.length) :
    (List.range l.length).map (fun k => l.get ⟨(c + k) % l.length, Nat.mod_lt _ h⟩) =
      l.rotate c := by
  apply List.ext_get
  · simp
  · intro i h1 h2
    simp only [List.get_map, List.get_range, List.get_rotate]
    exact get_idx_congr _ _ _ _ _ (by congr 1 <;> omega)

/-- C1 (amended): for every fully eligible credential set of size N ≥ 1 and
cursor position `c`, as long as the N consecutive `getNextToken` calls do not
cross the cursor wrap at 10000 (`c + N ≤ 10001`), the calls return exactly
the token list rotated by the cursor — each eligible credential exactly
once, in stable rotation order.  The wrap proviso is forced: resetting the
cursor to 0 when it passes 10000 re-aligns the rotation (see
`c1_counterexample`). -/
theorem c1_rotation_amended (now c : Nat) (a : Token) (rest : List Token)
    (hall : ∀ t ∈ a :: rest, eligibleToken now t = true)
    (hwrap : c + (a :: rest).length ≤ 10001) :
    (getNextTokens now (a :: rest).length ⟨a :: rest, c⟩).1 =
      ((a :: rest).rotate c).map GetNextResult.ok ∧
    ((getNextTokens now (a :: rest).length ⟨a :: rest, c⟩).1).Perm
      ((a :: rest).map GetNextResult.ok) := by
  have h1 := getNextTokens_all_eligible now a rest hall (a :: rest).length c hwrap
  have h2 := range_map_get_eq_rotate (a :: rest) c (Nat.succ_pos _)
  have hmain : (getNextTokens now (a :: rest).length ⟨a :: rest, c⟩).1 =
      ((a :: rest).rotate c).map GetNextResult.ok := by
    rw [h1, ← h2, List.map_map]
    rfl
  exact ⟨hmain, by rw [hmain]; exact (List.rotate_perm _ _).map _⟩

/-- C1 counterexample: two eligible credentials, cursor at the wrap bound
10000.  Two consecutive `getNextToken` calls return the first credential
twice and the second never — the claimed exactly-once rotation fails when
the cursor wrap is crossed. -/
theorem c1_counterexample :
    eligibleToken 0 tokA = true ∧ eligibleToken 0 tokB = true ∧ tokA ≠ tokB ∧
    (getNextTokens 0 2 poolAtWrap).1 = [.ok tokA, .ok tokA] ∧
    ¬ ((getNextTokens 0 2 poolAtWrap).1).Perm ([tokA, tokB].map GetNextResult.ok) := by
  decide

/-- Witness for `c1_rotation_amended` at a concrete two-token pool. -/
theorem c1_rotation_amended_witness :
    (getNextTokens 0 2 ⟨[tokA, tokB], 1⟩).1 =
      (([tokA, tokB]).rotate 1).map GetNextResult.ok :=
  (c1_rotation_amended 0 1 tokA [tokB] (by decide) (by decide)).1

/-- C2: whenever the eligible set (enabled and not quota-disabled) is empty,
`getNextToken` fails with one of the two pool-exhaustion messages, leaves the
state untouched, and never returns a credential.  The embedding is total: on
an empty eligible set the source throws before `currentTokenIndex %
availableTokens.length` is ever evaluated, so the modulo is only ever applied
to a nonempty list (the guarded `get` in `getNextToken`). -/
theorem c2_pool_exhausted (now : Nat) (s : PoolState)
    (h : s.tokens.filter (eligibleToken now) = []) :
    (∃ msg, getNextToken now s = (.poolExhausted msg, s)) ∧
    ∀ t, (getNextToken now s).1 ≠ .ok t := by
  have havail : (loadedTokens s).filter (fun t => !(isTokenDisabledByQuota now t)) = [] := by
    rw [loadedTokens, List.filter_filter, List.filter_eq_nil_iff]
    rw [List.filter_eq_nil_iff] at h
    intro t ht hp
    apply h t ht
    simp only [eligibleToken, Bool.and_eq_true]
    simp only [Bool.and_eq_true] at hp
    exact ⟨hp.2, hp.1⟩
  have hres : ∃ msg, getNextToken now s = (.poolExhausted msg, s) := by
    by_cases hm : (loadedTokens s).length = 0
    · exact ⟨"No tokens available.", by rw [getNextToken]; simp [hm]⟩
    · refine ⟨"No enabled tokens available.", ?_⟩
      rw [getNextToken]
      simp only [hm, if_false, havail]
  refine ⟨hres, ?_⟩
  intro t hok
  obtain ⟨msg, hmsg⟩ := hres
  rw [hmsg] at hok
  exact GetNextResult.noConfusion hok

/-- Witness for `c2_pool_exhausted`: a pool holding one disabled and one
quarantined credential at `now = 10`. -/
theorem c2_pool_exhausted_witness :
    (∃ msg, getNextToken 10 ⟨[tokOff, tokQuarantined], 3⟩ = (.poolExhausted msg, ⟨[tokOff, tokQuarantined], 3⟩)) ∧
    ∀ t, (getNextToken 10 ⟨[tokOff, tokQuarantined], 3⟩).1 ≠ .ok t :=
  c2_pool_exhausted 10 ⟨[tokOff, tokQuarantined], 3⟩ (by decide)

/-- C3: the eligibility invariant and its preservation.  (1) A credential is
eligible iff `enable` is set and the quarantine instant is unset or not in
the future (`disabledUntil ≤ now`; the millisecond at which the clock
reaches the instant already counts as past, matching the sweep's
`disabled_until <= now`).  (2) `disableTokenUntil` with a future instant
makes the credential ineligible, (3) without removing it from the in-memory
set.  (4) Once the clock passes the instant, one sweep makes an enabled
credential eligible again with the quota-exhausted flag cleared, and (5,6) a
sweep with nothing expired is a no-op, on a record and on the whole pool. -/
theorem c3_eligibility_invariant (now now' resetTime : Nat) (t : Token)
    (s : PoolState) (rt : String) :
    (eligibleToken now t = true ↔
      (t.enable = true ∧ (t.disabledUntil = none ∨ ∃ d, t.disabledUntil = some d ∧ d ≤ now))) ∧
    (now < resetTime → eligibleToken now (disableTokenUntil resetTime t) = false) ∧
    ((poolDisableTokenUntil s rt resetTime).tokens.map (fun x => x.refresh_token) =
      s.tokens.map (fun x => x.refresh_token)) ∧
    (resetTime ≤ now' → t.enable = true →
      eligibleToken now' (sweepToken now' (disableTokenUntil resetTime t)) = true ∧
      (sweepToken now' (disableTokenUntil resetTime t)).quotaExhausted = false) ∧
    ((∀ d, t.disabledUntil = some d → now < d) → sweepToken now t = t) ∧
    ((∀ t' ∈ s.tokens, ∀ d, t'.disabledUntil = some d → now < d) →
      quotaResetSweep now s = s) := by
  refine ⟨?_, ?_, ?_, ?_, ?_, ?_⟩
  · unfold eligibleToken isTokenDisabledByQuota
    cases hd : t.disabledUntil with
    | none => simp
    | some d =>
      simp only [Bool.and_eq_true, Bool.not_eq_true']
      constructor
      · rintro ⟨he, hlt⟩
        exact ⟨he, Or.inr ⟨d, rfl, by simpa using hlt⟩⟩
      · rintro ⟨he, h | ⟨d', hd', hle⟩⟩
        · exact absurd h (by simp)
        · obtain rfl : d = d' := by injection hd'
          exact ⟨he, by simpa using hle⟩
  · intro hfut
    unfold eligibleToken isTokenDisabledByQuota disableTokenUntil
    simp [hfut]
  · unfold poolDisableTokenUntil
    simp only [List.map_map]
    apply List.map_congr_left
    intro x _
    by_cases hx : x.refresh_token = rt <;> simp [hx, disableTokenUntil]
  · intro hle hen
    unfold sweepToken disableTokenUntil
    simp only [if_pos hle]
    unfold eligibleToken isTokenDisabledByQuota
    simp [hen]
  · intro hno
    unfold sweepToken
    cases hd : t.disabledUntil with
    | none => rfl
    | some d =>
      have := hno d hd
      simp [Nat.not_le.mpr this]
  · intro hno
    unfold quotaResetSweep
    have hids : s.tokens.map (sweepToken now) = s.tokens.map id := by
      apply List.map_congr_left
      intro t' ht'
      show sweepToken now t' = t'
      unfold sweepToken
      cases hd : t'.disabledUntil with
      | none => rfl
      | some d =>
        have := hno t' ht' d hd
        simp [Nat.not_le.mpr this]
    rw [hids, List.map_id]

/-- Witness for `c3_eligibility_invariant` at concrete values: quarantining
an enabled credential until 100 at time 50 makes it ineligible; at time 150
one sweep makes it eligible again with the flag cleared; a sweep at 50 of a
pool quarantined until 100 is a no-op. -/
theorem c3_eligibility_invariant_witness :
    eligibleToken 40 (disableTokenUntil 100 tokA) = false ∧
    (eligibleToken 150 (sweepToken 150 (disableTokenUntil 100 tokA)) = true ∧
      (sweepToken 150 (disableTokenUntil 100 tokA)).quotaExhausted = false) ∧
    quotaResetSweep 40 ⟨[tokQuarantined], 0⟩ = ⟨[tokQuarantined], 0⟩ :=
  ⟨(c3_eligibility_invariant 40 150 100 tokA ⟨[tokQuarantined], 0⟩ "a").2.1 (by decide),
   (c3_eligibility_invariant 40 150 100 tokA ⟨[tokQuarantined], 0⟩ "a").2.2.2.1 (by decide) (by decide),
   (c3_eligibility_invariant 40 150 100 tokA ⟨[tokQuarantined], 0⟩ "a").2.2.2.2.2 (by decide)⟩

/-- `getNextToken` only moves the cursor; the token set is untouched. -/
theorem getNextToken_tokens (now : Nat) (s : PoolState) :
    (getNextToken now s).2.tokens = s.tokens := by
  unfold getNextToken
  by_cases hm : (loadedTokens s).length = 0
  · simp [hm]
  · simp only [hm, if_false]
    split <;> rfl

/-- C4: `handleRequestError` follows the classification table in source
order.  Quota signals (status 429 or a message containing `quota`)
quarantine the credential until the next UTC midnight and hand the caller a
replacement from the pool; status 403 or 400 permanently disables it and
likewise hands back a replacement; every other error is propagated unchanged
with the pool state — in particular the failing credential — unmodified. -/
theorem c4_error_classification (now : Nat) (e : UpErr) (rt : String) (s : PoolState) :
    ((e.statusCode = some 429 ∨ msgIncludesQuota e.message = true) →
      (∃ r, handleRequestError now e rt s =
          (.replacement r, (getNextToken now (poolDisableTokenUntil s rt (nextUtcMidnight now))).2)) ∧
      ∀ t ∈ ((handleRequestError now e rt s).2).tokens, t.refresh_token = rt →
        t.disabledUntil = some (nextUtcMidnight now) ∧ t.quotaExhausted = true) ∧
    (¬(e.statusCode = some 429 ∨ msgIncludesQuota e.message = true) →
      (e.statusCode = some 403 ∨ e.statusCode = some 400) →
      (∃ r, handleRequestError now e rt s =
          (.replacement r, (getNextToken now (poolDisableToken s rt)).2)) ∧
      ∀ t ∈ ((handleRequestError now e rt s).2).tokens, t.refresh_token = rt →
        t.enable = false) ∧
    (¬(e.statusCode = some 429 ∨ msgIncludesQuota e.message = true) →
      e.statusCode ≠ some 403 → e.statusCode ≠ some 400 →
      handleRequestError now e rt s = (.propagate e, s)) := by
  refine ⟨?_, ?_, ?_⟩
  · intro hq
    have hre : handleRequestError now e rt s =
        (.replacement (getNextToken now (poolDisableTokenUntil s rt (nextUtcMidnight now))).1,
         (getNextToken now (poolDisableTokenUntil s rt (nextUtcMidnight now))).2) := by
      unfold handleRequestError
      rw [if_pos hq]
    refine ⟨⟨_, hre⟩, ?_⟩
    intro t ht hrt
    have htok : ((handleRequestError now e rt s).2).tokens =
        (poolDisableTokenUntil s rt (nextUtcMidnight now)).tokens := by
      simp only [hre, getNextToken_tokens]
    rw [htok] at ht
    unfold poolDisableTokenUntil at ht
    simp only [List.mem_map] at ht
    obtain ⟨a, _, hfa⟩ := ht
    by_cases hcase : a.refresh_token = rt
    · rw [if_pos hcase] at hfa
      rw [← hfa]
      exact ⟨rfl, rfl⟩
    · rw [if_neg hcase] at hfa
      rw [← hfa] at hrt
      exact absurd hrt hcase
  · intro hnq h34
    have hre : handleRequestError now e rt s =
        (.replacement (getNextToken now (poolDisableToken s rt)).1,
         (getNextToken now (poolDisableToken s rt)).2) := by
      unfold handleRequestError
      rw [if_neg hnq]
      rcases h34 with h403 | h400
      · rw [if_pos h403]
      · by_cases h403 : e.statusCode = some 403
        · rw [if_pos h403]
        · rw [if_neg h403, if_pos h400]
    refine ⟨⟨_, hre⟩, ?_⟩
    intro t ht hrt
    have htok : ((handleRequestError now e rt s).2).tokens =
        (poolDisableToken s rt).tokens := by
      simp only [hre, getNextToken_tokens]
    rw [htok] at ht
    unfold poolDisableToken at ht
    simp only [List.mem_map] at ht
    obtain ⟨a, _, hfa⟩ := ht
    by_cases hcase : a.refresh_token = rt
    · rw [if_pos hcase] at hfa
      rw [← hfa]
      rfl
    · rw [if_neg hcase] at hfa
      rw [← hfa] at hrt
      exact absurd hrt hcase
  · intro hnq h403 h400
    unfold handleRequestError
    rw [if_neg hnq, if_neg h403, if_neg h400]

/-- Witness for `c4_error_classification`: a 500 is propagated untouched, a
429 quarantines the matching credential until the next UTC midnight, a 403
permanently disables it. -/
theorem c4_error_classification_witness :
    (handleRequestError 5 ⟨some 500, none⟩ "a" poolC4 = (.propagate ⟨some 500, none⟩, poolC4)) ∧
    (∀ t ∈ ((handleRequestError 5 ⟨some 429, none⟩ "a" poolC4).2).tokens, t.refresh_token = "a" →
        t.disabledUntil = some (nextUtcMidnight 5) ∧ t.quotaExhausted = true) ∧
    (∀ t ∈ ((handleRequestError 5 ⟨some 403, none⟩ "a" poolC4).2).tokens, t.refresh_token = "a" →
        t.enable = false) :=
  ⟨(c4_error_classification 5 ⟨some 500, none⟩ "a" poolC4).2.2 (by decide) (by decide) (by decide),
   ((c4_error_classification 5 ⟨some 429, none⟩ "a" poolC4).1 (Or.inl rfl)).2,
   ((c4_error_classification 5 ⟨some 403, none⟩ "a" poolC4).2.1 (by decide) (Or.inl rfl)).2⟩

/-- C6 (code bug): on a second or later offense — an existing `share_bans`
row — `banUserFromSharing` still reports `banCount = 1` and issues a 1-day
ban ending exactly one day after `now`.  The schedule's own comments promise
3 days for the second offense and 90 for the sixth, but the row has no
ban-count column to read or write, so `(existing.banCount || 0) + 1` is
always `1` and the schedule index is always `0`. -/
theorem c6_ban_escalation_bug (now : Nat) (db : ShareDB) (u : Nat) (reason : String)
    (hexisting : (findBan db u).isSome = true) :
    (banUserFromSharing now db u reason).1.banCount = 1 ∧
    (banUserFromSharing now db u reason).1.durationDays = 1 ∧
    (banUserFromSharing now db u reason).1.banUntil = now + 86400000 := by
  unfold banUserFromSharing
  cases hf : findBan db u with
  | none => rw [hf] at hexisting; simp at hexisting
  | some b =>
    refine ⟨rfl, ?_, ?_⟩
    · simp [BAN_DURATIONS, mathRoundDiv]
    · simp [BAN_DURATIONS]

/-- Witness for `c6_ban_escalation_bug`: borrower 7 already has a ban row
(the failing input: a second offense), yet the new ban is 1 day, not the
documented 3. -/
theorem c6_ban_escalation_bug_witness :
    (banUserFromSharing 5000 banDbC6 7 "again").1.banCount = 1 ∧
    (banUserFromSharing 5000 banDbC6 7 "again").1.durationDays = 1 ∧
    (banUserFromSharing 5000 banDbC6 7 "again").1.banUntil = 5000 + 86400000 :=
  c6_ban_escalation_bug 5000 banDbC6 7 "again" (by decide)

/-- The selection phase never produces the ban short-circuit: that result
only arises from the ban gate. -/
theorem selectPhase_not_banned (now pick : Nat) (cid : Option Nat) (db : AppDB)
    (bu : Option Nat) (rt : Option Int) (rc : Option String) :
    (selectPhase now pick cid db).1 ≠ .bannedResult bu rt rc := by
  unfold selectPhase
  cases hr : (selectLoop cid (dayOf now) (sharedEnabled db) db).1 with
  | nil => simp [hr]
  | cons a rest => simp [hr]

/-- When the ban gate reports not banned, `getRandomSharedToken` proceeds to
the selection phase on the (possibly ban-pruned) store. -/
theorem getRandomSharedToken_gate_open (now pick u : Nat) (db : AppDB)
    (h : (isUserBanned now db.share u).1.banned = false) :
    getRandomSharedToken now pick (some u) db =
      selectPhase now pick (some u) { db with share := (isUserBanned now db.share u).2 } := by
  unfold getRandomSharedToken
  simp [h]

/-- C7 counterexample: at the exact instant `now = ban-until` the claim
says the ban is inert (`now >= ban-until`), but `isUserBanned` tests
`Date.now() > ban.ban_until` strictly: it still reports `banned = true`
with zero remaining time and does not delete the record. -/
theorem c7_counterexample :
    (isUserBanned 1000 banDbC7 1).1.banned = true ∧
    (isUserBanned 1000 banDbC7 1).1.remainingTime = some 0 ∧
    (isUserBanned 1000 banDbC7 1).2 = banDbC7 := by
  decide

/-- C7 (amended): the ban becomes inert strictly after `ban-until`
(`now > ban-until`, with a zero instant never expiring): `isUserBanned`
then reports `banned = false`, deletes the record as a side effect, and the
borrower is not short-circuited by the ban gate of shared-credential
selection.  While `now ≤ ban-until` it reports `banned = true` with the
remaining time `ban-until − now` and the stored reason, leaving the record
in place. -/
theorem c7_lazy_expiry_amended (now pick : Nat) (db : AppDB) (u : Nat) (ban : BanRow)
    (hban : findBan db.share u = some ban) :
    (ban.ban_until ≠ 0 → ban.ban_until < now →
      (isUserBanned now db.share u).1.banned = false ∧
      (isUserBanned now db.share u).2 = deleteBan db.share u ∧
      ∀ bu rt rc, (getRandomSharedToken now pick (some u) db).1 ≠ .bannedResult bu rt rc) ∧
    (ban.ban_until = 0 ∨ now ≤ ban.ban_until →
      (isUserBanned now db.share u).1 =
        ⟨true, some ban.ban_until, some 1, some ban.reason,
         some ((ban.ban_until : Int) - (now : Int))⟩ ∧
      (isUserBanned now db.share u).2 = db.share) := by
  constructor
  · intro hz hlt
    have hcond : (ban.ban_until != 0 && decide (ban.ban_until < now)) = true := by
      simp [hz, hlt]
    have hb : isUserBanned now db.share u = (⟨false, none, none, none, none⟩, deleteBan db.share u) := by
      simp [isUserBanned, hban, hcond]
    refine ⟨by rw [hb], by rw [hb], ?_⟩
    intro bu rt rc
    rw [getRandomSharedToken_gate_open now pick u db (by rw [hb])]
    exact selectPhase_not_banned now pick (some u) _ bu rt rc
  · intro hor
    have hcond : (ban.ban_until != 0 && decide (ban.ban_until < now)) = false := by
      rcases hor with h0 | hle
      · simp [h0]
      · simp [Nat.not_lt.mpr hle]
    have hb : isUserBanned now db.share u =
        (⟨true, some ban.ban_until, some 1, some ban.reason,
          some ((ban.ban_until : Int) - (now : Int))⟩, db.share) := by
      simp [isUserBanned, hban, hcond]
    exact ⟨by rw [hb], by rw [hb]⟩

/-- Witness for `c7_lazy_expiry_amended`: the ban until 1000 is still
reported (with remaining time 100) at `now = 900`, and at `now = 1001` it is
inert, deleted, and selection is not short-circuited. -/
theorem c7_lazy_expiry_amended_witness :
    ((isUserBanned 1001 banDbC7 1).1.banned = false ∧
     (isUserBanned 1001 banDbC7 1).2 = deleteBan banDbC7 1 ∧
     ∀ bu rt rc, (getRandomSharedToken 1001 0 (some 1) appDbC7).1 ≠ .bannedResult bu rt rc) ∧
    (isUserBanned 900 banDbC7 1).1 =
      ⟨true, some 1000, some 1, some "misuse", some ((1000 : Int) - (900 : Int))⟩ :=
  ⟨(c7_lazy_expiry_amended 1001 0 appDbC7 1 ⟨1, 1000, "misuse", 0⟩ (by decide)).1
      (by decide) (by decide),
   ((c7_lazy_expiry_amended 900 0 appDbC7 1 ⟨1, 1000, "misuse", 0⟩ (by decide)).2
      (Or.inr (by decide))).1⟩

/-- C8: `getUserAverageUsage` returns 0 with no samples, `checkAndBanAbuser`
bans exactly when the (rounded) per-distinct-day average exceeds 50, and at
the claimed boundary: 102 samples over 2 distinct days (average 51) ban, 100
samples over 2 distinct days (average 50) do not. -/
theorem c8_abuse_threshold (now : Nat) (db : ShareDB) (u : Nat) :
    (db.share_usage.filter (fun r => r.user_id == u) = [] →
      getUserAverageUsage db u = 0) ∧
    ((checkAndBanAbuser now db u).1.didBan = true ↔ 50 < getUserAverageUsage db u) ∧
    ((db.share_usage.filter (fun r => r.user_id == u)).length = 102 →
      (((db.share_usage.filter (fun r => r.user_id == u)).map
          (fun r => dayOf r.timestamp)).dedup).length = 2 →
      getUserAverageUsage db u = 51 ∧ (checkAndBanAbuser now db u).1.didBan = true) ∧
    ((db.share_usage.filter (fun r => r.user_id == u)).length = 100 →
      (((db.share_usage.filter (fun r => r.user_id == u)).map
          (fun r => dayOf r.timestamp)).dedup).length = 2 →
      getUserAverageUsage db u = 50 ∧ (checkAndBanAbuser now db u).1.didBan = false) := by
  have hiff : (checkAndBanAbuser now db u).1.didBan = true ↔ 50 < getUserAverageUsage db u := by
    unfold checkAndBanAbuser USAGE_THRESHOLD
    by_cases hgt : 50 < getUserAverageUsage db u
    · simp [hgt, AbuseResult.didBan]
    · simp [hgt, AbuseResult.didBan]
  refine ⟨?_, hiff, ?_, ?_⟩
  · intro hnil
    unfold getUserAverageUsage
    simp [hnil]
  · intro hlen hdays
    have havg : getUserAverageUsage db u = 51 := by
      unfold getUserAverageUsage
      simp only [hlen, hdays]
      norm_num [mathRoundDiv]
    exact ⟨havg, hiff.mpr (by rw [havg]; norm_num)⟩
  · intro hlen hdays
    have havg : getUserAverageUsage db u = 50 := by
      unfold getUserAverageUsage
      simp only [hlen, hdays]
      norm_num [mathRoundDiv]
    refine ⟨havg, ?_⟩
    rw [Bool.eq_false_iff]
    intro hb
    have := hiff.mp hb
    rw [havg] at this
    exact absurd this (by norm_num)

set_option maxRecDepth 100000 in
/-- Witness for `c8_abuse_threshold`: 51 samples on each of two days
(average 51) trigger a ban; 50 on each of two days (average 50) do not. -/
theorem c8_abuse_threshold_witness :
    (getUserAverageUsage usageDbC8 1 = 51 ∧ (checkAndBanAbuser 0 usageDbC8 1).1.didBan = true) ∧
    (getUserAverageUsage usageDbC8b 1 = 50 ∧ (checkAndBanAbuser 0 usageDbC8b 1).1.didBan = false) :=
  ⟨(c8_abuse_threshold 0 usageDbC8 1).2.2.1 (by decide) (by decide),
   (c8_abuse_threshold 0 usageDbC8b 1).2.2.2 (by decide) (by decide)⟩

/-- C10 counterexample: borrower 2 has one sample older than 30 days;
`recordShareUsage` called for borrower 1 removes it — the prune's `DELETE`
has no `user_id` filter, so other borrowers' samples are not left
unchanged as claimed. -/
theorem c10_counterexample :
    usageDbC10.share_usage.filter (fun r => r.user_id == 2) = [⟨2, 0⟩] ∧
    (recordShareUsage 2592000001 usageDbC10 1).2.share_usage.filter
      (fun r => r.user_id == 2) = [] := by
  decide

/-- C10 (amended): a `recordShareUsage(borrowerId)` call whose timestamp is
not already recorded for that borrower appends exactly one sample for it
and, as a side effect, prunes samples older than 30 days belonging to
EVERY borrower — the calling borrower's and all others' alike (the source's
cleanup `DELETE` carries no `user_id` restriction). -/
theorem c10_prune_amended (now : Nat) (db : ShareDB) (u : Nat)
    (hfresh : ∀ r ∈ db.share_usage, r.user_id = u → r.timestamp ≠ now) :
    ((recordShareUsage now db u).2.share_usage.filter (fun r => r.user_id == u) =
      db.share_usage.filter (fun r => r.user_id == u &&
        !(decide (r.timestamp < now - 30 * 24 * 60 * 60 * 1000))) ++ [⟨u, now⟩]) ∧
    (∀ v, v ≠ u →
      (recordShareUsage now db u).2.share_usage.filter (fun r => r.user_id == v) =
        db.share_usage.filter (fun r => r.user_id == v &&
          !(decide (r.timestamp < now - 30 * 24 * 60 * 60 * 1000)))) := by
  have hnodup : db.share_usage.any (fun r => r.user_id == u && r.timestamp == now) = false := by
    rw [List.any_eq_false]
    intro r hr
    simp only [Bool.and_eq_true, beq_iff_eq, not_and]
    intro hu
    exact fun ht => hfresh r hr hu ht
  have hdb : (recordShareUsage now db u).2.share_usage =
      (db.share_usage ++ [(⟨u, now⟩ : UsageRow)]).filter
        (fun r => !(decide (r.timestamp < now - 30 * 24 * 60 * 60 * 1000))) := by
    unfold recordShareUsage
    rw [hnodup]
    simp
  have hkeep1 : ([(⟨u, now⟩ : UsageRow)].filter
      (fun r => !(decide (r.timestamp < now - 30 * 24 * 60 * 60 * 1000)))) = [⟨u, now⟩] := by
    simp [Nat.not_lt.mpr (Nat.sub_le now _)]
  constructor
  · rw [hdb, List.filter_append, hkeep1, List.filter_append, List.filter_filter]
    have hone : ([(⟨u, now⟩ : UsageRow)].filter (fun r => r.user_id == u)) = [⟨u, now⟩] := by
      simp
    rw [hone]
  · intro v hv
    rw [hdb, List.filter_append, hkeep1, List.filter_append, List.filter_filter]
    have hnone : ([(⟨u, now⟩ : UsageRow)].filter (fun r => r.user_id == v)) = [] := by
      simp [Ne.symm hv]
    rw [hnone, List.append_nil]

/-- Witness for `c10_prune_amended`: borrower 1's call at `now` appends its
sample and keeps its own in-window sample, while borrower 2 loses the
sample older than 30 days and keeps the newer one. -/
theorem c10_prune_amended_witness :
    (recordShareUsage 2592000001 usageDbC10b 1).2.share_usage.filter
        (fun r => r.user_id == 1) = [⟨1, 2590000000⟩, ⟨1, 2592000001⟩] ∧
    (recordShareUsage 2592000001 usageDbC10b 1).2.share_usage.filter
        (fun r => r.user_id == 2) = [⟨2, 2592000000⟩] := by
  have h := c10_prune_amended 2592000001 usageDbC10b 1 (by decide)
  exact ⟨by rw [h.1]; decide, by rw [h.2 2 (by decide)]; decide⟩

/-- `find?` only depends on the predicate pointwise. -/
theorem find?_congr_pred {α : Type} (l : List α) (p q : α → Bool)
    (h : ∀ a ∈ l, p a = q a) : l.find? p = l.find? q := by
  induction l with
  | nil => rfl
  | cons a l ih =>
    by_cases hp : p a = true
    · rw [List.find?_cons_of_pos l hp, List.find?_cons_of_pos l ((h a (by simp)) ▸ hp)]
    · rw [List.find?_cons_of_neg l hp, List.find?_cons_of_neg l ((h a (by simp)) ▸ hp)]
      exact ih (fun b hb => h b (List.mem_cons_of_mem a hb))

/-- `findIdx` only depends on the predicate pointwise. -/
theorem findIdx_congr_pred {α : Type} (l : List α) (p q : α → Bool)
    (h : ∀ a ∈ l, p a = q a) : l.findIdx p = l.findIdx q := by
  induction l with
  | nil => rfl
  | cons a l ih =>
    rw [List.findIdx_cons, List.findIdx_cons, h a (by simp),
      ih (fun b hb => h b (List.mem_cons_of_mem a hb))]

/-- `findIdx` over a mapped list. -/
theorem findIdx_map_pred {α β : Type} (g : α → β) (l : List α) (p : β → Bool) :
    (l.map g).findIdx p = l.findIdx (fun a => p (g a)) := by
  induction l with
  | nil => rfl
  | cons a l ih => rw [List.map_cons, List.findIdx_cons, List.findIdx_cons, ih]

/-- `updateGToken` touches no user row. -/
theorem updateGToken_users (db : AppDB) (i : Nat) (f : GToken → GToken) :
    (updateGToken db i f).users = db.users := rfl

/-- `updateGToken` touches no sharing table. -/
theorem updateGToken_share (db : AppDB) (i : Nat) (f : GToken → GToken) :
    (updateGToken db i f).share = db.share := rfl

/-- Row lookup after a column update that keeps ids. -/
theorem findTok_update (db : AppDB) (i : Nat) (f : GToken → GToken)
    (hfi : ∀ t, (f t).id = t.id) (j : Nat) :
    findTok (updateGToken db i f) j =
      (findTok db j).map (fun t => if t.id == i then f t else t) := by
  unfold findTok updateGToken
  rw [List.find?_map]
  rw [find?_congr_pred db.google_tokens _ (fun t => t.id == j) (fun t _ => by
    by_cases hti : t.id = i
    · simp [hti, hfi]
    · simp [hti])]

/-- The owner's token list after a column update that keeps ids and owners. -/
theorem userTokens_update (db : AppDB) (i : Nat) (f : GToken → GToken)
    (hfu : ∀ t, (f t).user_id = t.user_id) (uid : Nat) :
    userTokens (updateGToken db i f) uid =
      (userTokens db uid).map (fun t => if t.id == i then f t else t) := by
  unfold userTokens updateGToken
  rw [List.filter_map]
  congr 1
  apply List.filter_congr
  intro t _
  by_cases hti : t.id = i
  · simp [hti, hfu]
  · simp [hti]

/-- The positional token index is invariant under column updates that keep
ids and owners. -/
theorem tokenIndexOf_update (db : AppDB) (i : Nat) (f : GToken → GToken)
    (hfi : ∀ t, (f t).id = t.id) (hfu : ∀ t, (f t).user_id = t.user_id)
    (uid tid : Nat) :
    tokenIndexOf (updateGToken db i f) uid tid = tokenIndexOf db uid tid := by
  unfold tokenIndexOf
  rw [userTokens_update db i f hfu uid, findIdx_map_pred]
  apply findIdx_congr_pred
  intro t _
  by_cases hti : t.id = i
  · simp [hti, hfi]
  · simp [hti]

/-- The blacklist skip test is invariant under column updates that keep ids
and owners. -/
theorem skipBlacklisted_update (db : AppDB) (i : Nat) (f : GToken → GToken)
    (hfi : ∀ t, (f t).id = t.id) (hfu : ∀ t, (f t).user_id = t.user_id)
    (cid : Option Nat) (t : GToken) :
    skipBlacklisted (updateGToken db i f) cid t = skipBlacklisted db cid t := by
  unfold skipBlacklisted
  cases cid with
  | none => rfl
  | some c => rw [tokenIndexOf_update db i f hfi hfu, updateGToken_share]

/-- With pairwise-distinct ids, `find?` by id of a member returns it. -/
theorem find?_id_of_mem_nodup (l : List GToken) (c : GToken)
    (hmem : c ∈ l) (hnd : (l.map (fun t => t.id)).Nodup) :
    l.find? (fun t => t.id == c.id) = some c := by
  induction l with
  | nil => cases hmem
  | cons a l ih =>
    rw [List.map_cons, List.nodup_cons] at hnd
    rcases List.mem_cons.mp hmem with rfl | hmem2
    · exact List.find?_cons_of_pos l (by simp)
    · have hne : ¬(a.id == c.id) = true := by
        simp only [beq_iff_eq]
        intro he
        exact hnd.1 (he ▸ List.mem_map_of_mem (fun t => t.id) hmem2)
      rw [List.find?_cons_of_neg l hne]
      exact ih hmem2 hnd.2

/-- The `getAllSharedTokensLoop` pass leaves users and sharing tables
alone. -/
theorem getAllSharedTokensLoop_frames (today : Nat) :
    ∀ (ts : List GToken) (db : AppDB),
      (getAllSharedTokensLoop today ts db).2.users = db.users ∧
      (getAllSharedTokensLoop today ts db).2.share = db.share := by
  intro ts
  induction ts with
  | nil => intro db; exact ⟨rfl, rfl⟩
  | cons t ts ih =>
    intro db
    unfold getAllSharedTokensLoop
    by_cases hst : (t.last_reset_date != today) = true
    · simp only [hst, if_true]
      exact ih _
    · simp only [hst, if_false]
      exact ih _

/-- The `selectLoop` pass leaves users and sharing tables alone. -/
theorem selectLoop_frames (cid : Option Nat) (today : Nat) :
    ∀ (ts : List GToken) (db : AppDB),
      (selectLoop cid today ts db).2.users = db.users ∧
      (selectLoop cid today ts db).2.share = db.share := by
  intro ts
  induction ts with
  | nil => intro db; exact ⟨rfl, rfl⟩
  | cons t ts ih =>
    intro db
    unfold selectLoop
    by_cases hsk : skipBlacklisted db cid t = true
    · simp only [hsk, if_true]
      exact ih _
    · simp only [hsk, if_false]
      by_cases hst : (t.last_reset_date != today) = true
      · simp only [hst, if_true]
        exact ih _
      · simp only [hst, if_false]
        exact ih _

/-- Row lookup through the `getAllSharedTokens` pass: the row with id `i`
is reset exactly when an enumerated candidate with that id was stale. -/
theorem getAllSharedTokensLoop_find (today i : Nat) :
    ∀ (ts : List GToken) (db : AppDB) (r : GToken),
      (ts.map (fun t => t.id)).Nodup →
      findTok db i = some r →
      (∀ t ∈ ts, t.id = i → t.last_reset_date = r.last_reset_date) →
      findTok (getAllSharedTokensLoop today ts db).2 i =
        some (if ts.any (fun t => t.id == i && t.last_reset_date != today)
              then resetFields today r else r) := by
  intro ts
  induction ts with
  | nil =>
    intro db r _ hfind _
    simpa using hfind
  | cons t ts ih =>
    intro db r hnd hfind hdates
    rw [List.map_cons, List.nodup_cons] at hnd
    have hdtail : ∀ t2 ∈ ts, t2.id = i → t2.last_reset_date = r.last_reset_date :=
      fun t2 h2 => hdates t2 (List.mem_cons_of_mem t h2)
    have hri : r.id = i := by simpa using List.find?_some hfind
    unfold getAllSharedTokensLoop
    simp only [List.any_cons]
    by_cases hti : t.id = i
    · have hdr : t.last_reset_date = r.last_reset_date := hdates t (by simp) hti
      by_cases hst : (t.last_reset_date != today) = true
      · rw [if_pos hst]
        have hupd : findTok (updateGToken db t.id (resetFields today)) i =
            some (resetFields today r) := by
          rw [findTok_update db t.id (resetFields today) (fun _ => rfl), hfind]
          simp [hri, hti]
        have hvac : ∀ t2 ∈ ts, t2.id = i →
            t2.last_reset_date = (resetFields today r).last_reset_date := by
          intro t2 h2 hid2
          exact absurd (hti ▸ hid2 ▸ List.mem_map_of_mem (fun t => t.id) h2) hnd.1
        rw [ih _ (resetFields today r) hnd.2 hupd hvac]
        by_cases hany : (ts.any fun t => t.id == i && t.last_reset_date != today) = true <;>
          simp [hany, hti, hst, resetFields]
      · have hst2 : (t.last_reset_date != today) = false := by simpa using hst
        rw [if_neg hst, ih db r hnd.2 hfind hdtail]
        simp [hst2]
    · have hit : ¬ (i = t.id) := fun h => hti h.symm
      by_cases hst : (t.last_reset_date != today) = true
      · rw [if_pos hst]
        have hupd : findTok (updateGToken db t.id (resetFields today)) i = some r := by
          rw [findTok_update db t.id (resetFields today) (fun _ => rfl), hfind]
          simp [hri, hit]
        rw [ih _ r hnd.2 hupd hdtail]
        simp [hti]
      · rw [if_neg hst, ih db r hnd.2 hfind hdtail]
        simp [hti]

/-- The `selectLoop` pass leaves a row alone when every candidate sharing
its id is already reset today. -/
theorem selectLoop_find_fresh (cid : Option Nat) (today i : Nat) :
    ∀ (ts : List GToken) (db : AppDB),
      (∀ t ∈ ts, t.id = i → t.last_reset_date = today) →
      findTok (selectLoop cid today ts db).2 i = findTok db i := by
  intro ts
  induction ts with
  | nil => intro db _; rfl
  | cons t ts ih =>
    intro db hfresh
    have hftail : ∀ t2 ∈ ts, t2.id = i → t2.last_reset_date = today :=
      fun t2 h2 => hfresh t2 (List.mem_cons_of_mem t h2)
    unfold selectLoop
    by_cases hsk : skipBlacklisted db cid t = true
    · rw [if_pos hsk]
      exact ih db hftail
    · rw [if_neg hsk]
      by_cases hst : (t.last_reset_date != today) = true
      · rw [if_pos hst]
        have hti : t.id ≠ i := by
          intro h
          have := hfresh t (by simp) h
          simp [this] at hst
        have hupd : findTok (updateGToken db t.id (resetFields today)) i = findTok db i := by
          rw [findTok_update db t.id (resetFields today) (fun _ => rfl)]
          cases hf : findTok db i with
          | none => rfl
          | some r =>
            have hri : r.id = i := by simpa using List.find?_some hf
            have hit : ¬ (r.id = t.id) := by
              rw [hri]
              exact fun h => hti h.symm
            simp [hit]
        rw [ih _ hftail, hupd]
      · rw [if_neg hst]
        exact ih db hftail

/-- Every enumerated candidate contributes a summary built from its lazily
reset snapshot. -/
theorem getAllSharedTokensLoop_entry (today : Nat) (c : GToken) :
    ∀ (ts : List GToken) (db : AppDB), c ∈ ts →
      ∃ e ∈ (getAllSharedTokensLoop today ts db).1,
        e.tokenId = c.id ∧
        e.dailyLimit = (lazyReset today c).daily_limit ∧
        e.usageToday = (lazyReset today c).usage_today ∧
        e.remainingToday =
          ((lazyReset today c).daily_limit : Int) - ((lazyReset today c).usage_today : Int) := by
  intro ts
  induction ts with
  | nil => intro db h; cases h
  | cons t ts ih =>
    intro db hmem
    rcases List.mem_cons.mp hmem with rfl | hmem2
    · exact ⟨_, List.mem_cons_self _ _, rfl, rfl, rfl, rfl⟩
    · obtain ⟨e, he, hp⟩ := ih _ hmem2
      exact ⟨e, List.mem_cons_of_mem _ he, hp⟩

/-- The blacklist test ignores daily resets of the store. -/
theorem skipBlacklisted_reset_if (db : AppDB) (j today : Nat) (b : Bool)
    (cid : Option Nat) (t : GToken) :
    skipBlacklisted (if b = true then updateGToken db j (resetFields today) else db) cid t =
      skipBlacklisted db cid t := by
  cases b
  · rw [if_neg (by simp)]
  · rw [if_pos rfl]
    exact skipBlacklisted_update db j (resetFields today) (fun _ => rfl) (fun _ => rfl) cid t

/-- Every row the selection pass keeps comes from an enumerated candidate
that passed the blacklist test (evaluated against the starting store) and
has borrow budget left after its lazy reset. -/
theorem selectLoop_avail_mem (cid : Option Nat) (today : Nat) :
    ∀ (ts : List GToken) (db : AppDB) (x : GToken),
      x ∈ (selectLoop cid today ts db).1 →
      ∃ t ∈ ts, skipBlacklisted db cid t = false ∧ x = lazyReset today t ∧
        (lazyReset today t).usage_today < (lazyReset today t).daily_limit := by
  intro ts
  induction ts with
  | nil =>
    intro db x h
    cases h
  | cons t ts ih =>
    intro db x hx
    unfold selectLoop at hx
    by_cases hsk : skipBlacklisted db cid t = true
    · rw [if_pos hsk] at hx
      obtain ⟨t2, h2, hp⟩ := ih db x hx
      exact ⟨t2, List.mem_cons_of_mem _ h2, hp⟩
    · rw [if_neg hsk] at hx
      simp only [] at hx
      have hskf : skipBlacklisted db cid t = false := by simpa using hsk
      by_cases hq : (lazyReset today t).usage_today < (lazyReset today t).daily_limit
      · rw [if_pos hq] at hx
        rcases List.mem_cons.mp hx with rfl | hx2
        · exact ⟨t, List.mem_cons_self _ _, hskf, rfl, hq⟩
        · obtain ⟨t2, h2, hskip2, hrest⟩ := ih _ x hx2
          refine ⟨t2, List.mem_cons_of_mem _ h2, ?_, hrest⟩
          rw [← skipBlacklisted_reset_if db t.id today (t.last_reset_date != today) cid t2]
          exact hskip2
      · rw [if_neg hq] at hx
        obtain ⟨t2, h2, hskip2, hrest⟩ := ih _ x hx
        refine ⟨t2, List.mem_cons_of_mem _ h2, ?_, hrest⟩
        rw [← skipBlacklisted_reset_if db t.id today (t.last_reset_date != today) cid t2]
        exact hskip2

/-- When every enumerated candidate is blacklisted or out of budget, the
selection pass keeps nothing. -/
theorem selectLoop_avail_nil (cid : Option Nat) (today : Nat) :
    ∀ (ts : List GToken) (db : AppDB),
      (∀ t ∈ ts, skipBlacklisted db cid t = true ∨
        ¬ (lazyReset today t).usage_today < (lazyReset today t).daily_limit) →
      (selectLoop cid today ts db).1 = [] := by
  intro ts
  induction ts with
  | nil => intro db _; rfl
  | cons t ts ih =>
    intro db hall
    have htail : ∀ t2 ∈ ts, skipBlacklisted db cid t2 = true ∨
        ¬ (lazyReset today t2).usage_today < (lazyReset today t2).daily_limit :=
      fun t2 h2 => hall t2 (List.mem_cons_of_mem t h2)
    unfold selectLoop
    by_cases hsk : skipBlacklisted db cid t = true
    · rw [if_pos hsk]
      exact ih db htail
    · rw [if_neg hsk]
      simp only []
      rcases hall t (List.mem_cons_self t ts) with h | hq
      · exact absurd h hsk
      · rw [if_neg hq]
        apply ih
        intro t2 h2
        rw [skipBlacklisted_reset_if db t.id today (t.last_reset_date != today) cid t2]
        exact htail t2 h2

/-- An `okToken` result of the selection phase names a row the pass kept. -/
theorem selectPhase_ok_mem (now pick : Nat) (cid : Option Nat) (db : AppDB)
    (tid oid uT dL : Nat)
    (h : (selectPhase now pick cid db).1 = .okToken tid oid uT dL) :
    ∃ x ∈ (selectLoop cid (dayOf now) (sharedEnabled db) db).1, x.id = tid := by
  unfold selectPhase at h
  simp only [] at h
  cases hr : (selectLoop cid (dayOf now) (sharedEnabled db) db).1 with
  | nil =>
    rw [hr] at h
    exact absurd h (by simp)
  | cons a rest =>
    rw [hr] at h
    simp only [ShareSelect.okToken.injEq] at h
    refine ⟨(a :: rest).get ⟨pick % (a :: rest).length, Nat.mod_lt _ (Nat.succ_pos _)⟩, ?_, h.1⟩
    exact List.get_mem _ _ _

/-- `lazyReset` keeps the row id. -/
theorem lazyReset_id (today : Nat) (t : GToken) : (lazyReset today t).id = t.id := by
  unfold lazyReset
  split <;> rfl

/-- The ban gate's lazy deletion touches only `share_bans`. -/
theorem isUserBanned_blacklist (now : Nat) (sdb : ShareDB) (u : Nat) :
    ((isUserBanned now sdb u).2).share_blacklist = sdb.share_blacklist := by
  unfold isUserBanned
  split
  · rfl
  · split <;> rfl

/-- `isUserBlacklisted` reads only the blacklist table. -/
theorem isUserBlacklisted_only_bl (s1 s2 : ShareDB)
    (h : s1.share_blacklist = s2.share_blacklist) (o i u : Nat) :
    isUserBlacklisted s1 o i u = isUserBlacklisted s2 o i u := by
  unfold isUserBlacklisted
  rw [h]

/-- An empty kept-candidate list makes the selection phase return `null`. -/
theorem selectPhase_nil (now pick : Nat) (cid : Option Nat) (db : AppDB)
    (h : (selectLoop cid (dayOf now) (sharedEnabled db) db).1 = []) :
    (selectPhase now pick cid db).1 = .noToken := by
  unfold selectPhase
  simp [h]

/-- C9: for a credential whose blacklist contains borrower `b` — a
`share_blacklist` row for its owner and positional index — a
`getRandomSharedToken(b)` call never returns that credential, whatever its
remaining quota; and when it is the only shared, enabled, owner-enabled
credential with remaining borrow budget — every other credential either
fails the shared/enabled/owner join (its budget is then irrelevant) or has
no budget left after its lazy reset — and `b` is not banned, the call
returns the no-credential result `null` instead. -/
theorem c9_blacklist_excluded (now pick b cId o : Nat) (db : AppDB)
    (howner : ∀ t ∈ db.google_tokens, t.id = cId → t.user_id = some o)
    (hbl : isUserBlacklisted db.share o (tokenIndexOf db o cId) b = true) :
    (∀ oid uT dL, (getRandomSharedToken now pick (some b) db).1 ≠ .okToken cId oid uT dL) ∧
    ((isUserBanned now db.share b).1.banned = false →
     (∀ t ∈ sharedEnabled db, t.id ≠ cId →
        ¬ (lazyReset (dayOf now) t).usage_today < (lazyReset (dayOf now) t).daily_limit) →
     (getRandomSharedToken now pick (some b) db).1 = .noToken) := by
  by_cases hban : (isUserBanned now db.share b).1.banned = true
  · have hgate : getRandomSharedToken now pick (some b) db =
        (.bannedResult (isUserBanned now db.share b).1.banUntil
          (isUserBanned now db.share b).1.remainingTime
          (isUserBanned now db.share b).1.reason,
         { db with share := (isUserBanned now db.share b).2 }) := by
      unfold getRandomSharedToken
      simp [hban]
    constructor
    · intro oid uT dL
      rw [hgate]
      simp
    · intro hfalse
      rw [hban] at hfalse
      exact absurd hfalse (by simp)
  · have hbf : (isUserBanned now db.share b).1.banned = false := by simpa using hban
    have hgate := getRandomSharedToken_gate_open now pick b db hbf
    have hskipc : ∀ t ∈ sharedEnabled { db with share := (isUserBanned now db.share b).2 },
        t.id = cId →
        skipBlacklisted { db with share := (isUserBanned now db.share b).2 } (some b) t = true := by
      intro t htmem htid
      have htdb : t ∈ db.google_tokens := List.mem_of_mem_filter htmem
      have huid : t.user_id = some o := howner t htdb htid
      unfold skipBlacklisted
      rw [huid]
      simp only [Option.getD_some]
      rw [isUserBlacklisted_only_bl _ db.share (isUserBanned_blacklist now db.share b) o _ b]
      have hidx : tokenIndexOf { db with share := (isUserBanned now db.share b).2 } o t.id =
          tokenIndexOf db o cId := by
        rw [htid]
        rfl
      rw [hidx]
      exact hbl
    constructor
    · intro oid uT dL hres
      rw [hgate] at hres
      obtain ⟨x, hxmem, hxid⟩ := selectPhase_ok_mem now pick (some b) _ cId oid uT dL hres
      obtain ⟨t, htmem, hskip, hxeq, _⟩ := selectLoop_avail_mem (some b) (dayOf now) _ _ x hxmem
      have htid : t.id = cId := by
        rw [hxeq] at hxid
        rw [← lazyReset_id (dayOf now) t]
        exact hxid
      rw [hskipc t htmem htid] at hskip
      exact absurd hskip (by simp)
    · intro _ hothers
      rw [hgate]
      apply selectPhase_nil
      apply selectLoop_avail_nil
      intro t htmem
      by_cases htid : t.id = cId
      · exact Or.inl (hskipc t htmem htid)
      · exact Or.inr (hothers t htmem htid)

/-- Witness for `c9_blacklist_excluded`: credential 10 (owner 1, index 0)
blacklists borrower 2; although it is shared, enabled and has budget 5, the
call for borrower 2 never returns it, and — it being the only shared
credential, the owner's other credential 11 being unshared despite its
untouched budget of 100 — the call returns `null`. -/
theorem c9_blacklist_excluded_witness :
    (∀ oid uT dL, (getRandomSharedToken 86400000 3 (some 2) dbC9).1 ≠ .okToken 10 oid uT dL) ∧
    (getRandomSharedToken 86400000 3 (some 2) dbC9).1 = .noToken :=
  ⟨(c9_blacklist_excluded 86400000 3 2 10 1 dbC9 (by decide) (by decide)).1,
   (c9_blacklist_excluded 86400000 3 2 10 1 dbC9 (by decide) (by decide)).2
     (by decide) (by decide)⟩

/-- `updateGToken` with an id-preserving column update keeps the id list. -/
theorem updateGToken_ids (db : AppDB) (i : Nat) (f : GToken → GToken)
    (hfi : ∀ t, (f t).id = t.id) :
    (updateGToken db i f).google_tokens.map (fun t => t.id) =
      db.google_tokens.map (fun t => t.id) := by
  unfold updateGToken
  simp only [List.map_map]
  apply List.map_congr_left
  intro t _
  by_cases h : t.id = i <;> simp [h, hfi]

/-- The `getAllSharedTokens` pass keeps the id list. -/
theorem getAllSharedTokensLoop_ids (today : Nat) :
    ∀ (ts : List GToken) (db : AppDB),
      (getAllSharedTokensLoop today ts db).2.google_tokens.map (fun t => t.id) =
        db.google_tokens.map (fun t => t.id) := by
  intro ts
  induction ts with
  | nil => intro db; rfl
  | cons t ts ih =>
    intro db
    unfold getAllSharedTokensLoop
    by_cases hst : (t.last_reset_date != today) = true
    · rw [if_pos hst]
      show (getAllSharedTokensLoop today ts _).2.google_tokens.map _ = _
      rw [ih, updateGToken_ids db t.id (resetFields today) (fun _ => rfl)]
    · rw [if_neg hst]
      exact ih db

/-- Two stores with the same token rows agree on row lookup. -/
theorem findTok_congr_gt (d1 d2 : AppDB) (h : d1.google_tokens = d2.google_tokens) (i : Nat) :
    findTok d1 i = findTok d2 i := by
  unfold findTok
  rw [h]

/-- `lazyReset` keeps the daily limit. -/
theorem lazyReset_daily_limit (today : Nat) (t : GToken) :
    (lazyReset today t).daily_limit = t.daily_limit := by
  unfold lazyReset
  split <;> rfl

/-- `lazyReset` zeroes nothing that is already zero. -/
theorem lazyReset_usage_zero (today : Nat) (t : GToken) (h : t.usage_today = 0) :
    (lazyReset today t).usage_today = 0 := by
  unfold lazyReset
  split
  · rfl
  · exact h

/-- `lazyReset` of a row already reset today is the row itself. -/
theorem lazyReset_fresh (today : Nat) (t : GToken) (h : t.last_reset_date = today) :
    lazyReset today t = t := by
  unfold lazyReset
  rw [if_neg (by simp [h])]

/-- Successful `updateTokenSharing` with `isShared := true, dailyLimit :=
20`: both column updates land on the indexed token (20 survives the clamp)
and the updated sharing fields are reported. -/
theorem updateTokenSharing_spec (db : AppDB) (o tIdx : Nat) (c : GToken)
    (hu : (db.users.find? (fun x => x.id == o)).isSome = true)
    (hcget : (userTokens db o)[tIdx]? = some c)
    (hnodup : (db.google_tokens.map (fun t => t.id)).Nodup) :
    updateTokenSharing db o tIdx ⟨some true, some 20⟩ =
      .ok (⟨true, 20⟩,
        updateGToken (updateGToken db c.id (fun t => { t with is_shared := true }))
          c.id (fun t => { t with daily_limit := 20 })) := by
  obtain ⟨hlen, hget⟩ := List.getElem?_eq_some_iff.mp hcget
  have hcmemU : c ∈ userTokens db o := by
    rw [← hget]
    exact List.getElem_mem hlen
  have hcmem : c ∈ db.google_tokens := List.mem_of_mem_filter hcmemU
  have hc20 : clampLimit 20 = 20 := by decide
  have hfind : findTok db c.id = some c := find?_id_of_mem_nodup _ c hcmem hnodup
  have hfind1 : findTok (updateGToken db c.id (fun t => { t with is_shared := true })) c.id =
      some { c with is_shared := true } := by
    rw [findTok_update db c.id (fun t => { t with is_shared := true }) (fun _ => rfl), hfind]
    simp
  have hfind2 : findTok (updateGToken (updateGToken db c.id
        (fun t => { t with is_shared := true })) c.id
        (fun t => { t with daily_limit := clampLimit 20 })) c.id =
      some { c with is_shared := true, daily_limit := clampLimit 20 } := by
    rw [findTok_update (updateGToken db c.id (fun t => { t with is_shared := true })) c.id
      (fun t => { t with daily_limit := clampLimit 20 }) (fun _ => rfl), hfind1]
    simp
  unfold updateTokenSharing
  cases hfu : db.users.find? (fun x => x.id == o) with
  | none =>
    rw [hfu] at hu
    simp at hu
  | some urow =>
    simp only [dif_pos hlen]
    have hgid : (userTokens db o).get ⟨tIdx, hlen⟩ = c := by
      rw [← hget]
      rfl
    rw [hgid]
    rw [hc20] at hfind2
    simp only [hc20, hfind2]

/-- When the selection phase returns `okToken tid ...`, its final store is
the pass's store with `usage_today` incremented at row `tid` (the
triggered usage/abuse bookkeeping touches only the sharing tables). -/
theorem selectPhase_ok_db (now pick : Nat) (cid : Option Nat) (db : AppDB)
    (tid oid uT dL : Nat)
    (h : (selectPhase now pick cid db).1 = .okToken tid oid uT dL) :
    (selectPhase now pick cid db).2.google_tokens =
      (updateGToken (selectLoop cid (dayOf now) (sharedEnabled db) db).2 tid
        (fun t => { t with usage_today := t.usage_today + 1 })).google_tokens ∧
    (selectPhase now pick cid db).2.users =
      (selectLoop cid (dayOf now) (sharedEnabled db) db).2.users := by
  unfold selectPhase at h ⊢
  simp only [] at h ⊢
  cases hr : (selectLoop cid (dayOf now) (sharedEnabled db) db).1 with
  | nil =>
    rw [hr] at h
    exact absurd h (by simp)
  | cons a rest =>
    rw [hr] at h
    simp only [ShareSelect.okToken.injEq] at h
    simp only [hr]
    rw [← h.1]
    cases cid with
    | none => exact ⟨rfl, rfl⟩
    | some u => exact ⟨rfl, rfl⟩

/-- C5: the sharing round trip.  For a credential `c` of an enabled owner
`o` with no borrow used (`usage_today = 0`), `setSharing(c, true, 20)` —
`updateTokenSharing` — applies both column updates; `listShared` —
`getAllSharedTokens` — then reports `remaining = 20` for `c`; and after one
`selectForBorrower` call — `getRandomSharedToken` — that returns `c`,
`listShared` reports `remaining = 19`: the selection incremented `c`'s
day-scoped borrow counter by exactly one. -/
theorem c5_sharing_round_trip (now pick b o tIdx : Nat) (db : AppDB) (c : GToken)
    (hnodup : (db.google_tokens.map (fun t => t.id)).Nodup)
    (hu : (db.users.find? (fun x => x.id == o)).isSome = true)
    (hoEn : ∀ u ∈ db.users, u.id = o → u.enabled = true)
    (hcget : (userTokens db o)[tIdx]? = some c)
    (hcEn : c.enabled = true)
    (hc0 : c.usage_today = 0) :
    updateTokenSharing db o tIdx ⟨some true, some 20⟩ =
      .ok (⟨true, 20⟩,
        updateGToken (updateGToken db c.id (fun t => { t with is_shared := true }))
          c.id (fun t => { t with daily_limit := 20 })) ∧
    (∃ e ∈ (getAllSharedTokens (dayOf now)
        (updateGToken (updateGToken db c.id (fun t => { t with is_shared := true }))
          c.id (fun t => { t with daily_limit := 20 }))).1,
      e.tokenId = c.id ∧ e.remainingToday = 20) ∧
    (∀ oid uT dL,
      (getRandomSharedToken now pick (some b)
        (getAllSharedTokens (dayOf now)
          (updateGToken (updateGToken db c.id (fun t => { t with is_shared := true }))
            c.id (fun t => { t with daily_limit := 20 }))).2).1 = .okToken c.id oid uT dL →
      ∃ e ∈ (getAllSharedTokens (dayOf now)
          (getRandomSharedToken now pick (some b)
            (getAllSharedTokens (dayOf now)
              (updateGToken (updateGToken db c.id (fun t => { t with is_shared := true }))
                c.id (fun t => { t with daily_limit := 20 }))).2).2).1,
        e.tokenId = c.id ∧ e.remainingToday = 19) := by
  obtain ⟨hlen, hget⟩ := List.getElem?_eq_some_iff.mp hcget
  have hcmemU : c ∈ userTokens db o := by
    rw [← hget]
    exact List.getElem_mem hlen
  have hcmem : c ∈ db.google_tokens := List.mem_of_mem_filter hcmemU
  have hcuid : c.user_id = some o := by
    have := (List.mem_filter.mp hcmemU).2
    simpa using this
  obtain ⟨urow, humem, hupred⟩ := List.find?_isSome.mp hu
  have huid : urow.id = o := by simpa using hupred
  have huen : urow.enabled = true := hoEn urow humem huid
  set today := dayOf now with htoday
  set db1 := updateGToken (updateGToken db c.id (fun t => { t with is_shared := true }))
      c.id (fun t => { t with daily_limit := 20 }) with hdb1
  set c1 : GToken := { c with is_shared := true, daily_limit := 20 } with hc1
  have hfind : findTok db c.id = some c := find?_id_of_mem_nodup _ c hcmem hnodup
  have hfindA : findTok (updateGToken db c.id (fun t => { t with is_shared := true })) c.id =
      some { c with is_shared := true } := by
    rw [findTok_update db c.id (fun t => { t with is_shared := true }) (fun _ => rfl), hfind]
    simp
  have hfindb1 : findTok db1 c.id = some c1 := by
    rw [hdb1, findTok_update (updateGToken db c.id (fun t => { t with is_shared := true }))
      c.id (fun t => { t with daily_limit := 20 }) (fun _ => rfl), hfindA]
    simp [hc1]
  have hids1 : db1.google_tokens.map (fun t => t.id) = db.google_tokens.map (fun t => t.id) := by
    rw [hdb1, updateGToken_ids (updateGToken db c.id (fun t => { t with is_shared := true }))
      c.id (fun t => { t with daily_limit := 20 }) (fun _ => rfl),
      updateGToken_ids db c.id (fun t => { t with is_shared := true }) (fun _ => rfl)]
  have hnodup1 : (db1.google_tokens.map (fun t => t.id)).Nodup := by
    rw [hids1]
    exact hnodup
  have husers1 : db1.users = db.users := rfl
  have hc1mem : c1 ∈ db1.google_tokens := List.mem_of_find?_eq_some hfindb1
  have hanyu : ∀ (x : GToken), x.user_id = c.user_id →
      db.users.any (fun u => (some u.id == x.user_id) && u.enabled) = true := by
    intro x hx
    apply List.any_eq_true.mpr
    refine ⟨urow, humem, ?_⟩
    rw [hx, hcuid, huid, huen]
    simp
  have hc1shared : c1 ∈ sharedEnabled db1 := by
    apply List.mem_filter.mpr
    refine ⟨hc1mem, ?_⟩
    rw [husers1]
    have ha := hanyu c1 rfl
    simp only [hc1] at ha ⊢
    simp [hcEn, ha]
  have hcandnd : ((sharedEnabled db1).map (fun t => t.id)).Nodup := by
    apply List.Nodup.sublist _ hnodup1
    exact List.Sublist.map _ (List.filter_sublist _)
  -- first listShared: remaining = 20
  have hconj2 : ∃ e ∈ (getAllSharedTokens today db1).1,
      e.tokenId = c.id ∧ e.remainingToday = 20 := by
    obtain ⟨e, he, he1, he2, he3, he4⟩ :=
      getAllSharedTokensLoop_entry today c1 (sharedEnabled db1) db1 hc1shared
    refine ⟨e, he, by rw [he1], ?_⟩
    rw [he4, lazyReset_daily_limit, lazyReset_usage_zero today c1 (by simp [hc1, hc0])]
    simp [hc1]
  refine ⟨updateTokenSharing_spec db o tIdx c hu hcget hnodup, hconj2, ?_⟩
  -- the store after the first listShared
  set db2 := (getAllSharedTokens today db1).2 with hdb2
  have husers2 : db2.users = db.users := by
    rw [hdb2]
    show (getAllSharedTokensLoop today (sharedEnabled db1) db1).2.users = db.users
    rw [(getAllSharedTokensLoop_frames today (sharedEnabled db1) db1).1, husers1]
  have hids2 : db2.google_tokens.map (fun t => t.id) =
      db.google_tokens.map (fun t => t.id) := by
    rw [hdb2]
    show (getAllSharedTokensLoop today (sharedEnabled db1) db1).2.google_tokens.map _ = _
    rw [getAllSharedTokensLoop_ids today (sharedEnabled db1) db1, hids1]
  have hnodup2 : (db2.google_tokens.map (fun t => t.id)).Nodup := by
    rw [hids2]
    exact hnodup
  have hdates1 : ∀ t ∈ sharedEnabled db1, t.id = c.id →
      t.last_reset_date = c1.last_reset_date := by
    intro t ht htid
    have htmem : t ∈ db1.google_tokens := List.mem_of_mem_filter ht
    have : t = c1 := by
      apply List.inj_on_of_nodup_map hnodup1 htmem hc1mem
      show t.id = c1.id
      rw [htid]
    rw [this]
  have hfc2full := getAllSharedTokensLoop_find today c.id (sharedEnabled db1) db1 c1
    hcandnd hfindb1 hdates1
  obtain ⟨c2, hfc2, hc2id, hc2uid, hc2en, hc2sh, hc2lim, hc2u0, hc2d⟩ :
      ∃ c2, findTok db2 c.id = some c2 ∧ c2.id = c.id ∧ c2.user_id = c.user_id ∧
        c2.enabled = true ∧ c2.is_shared = true ∧ c2.daily_limit = 20 ∧
        c2.usage_today = 0 ∧ c2.last_reset_date = today := by
    by_cases hG : ((sharedEnabled db1).any
        (fun t => t.id == c.id && t.last_reset_date != today)) = true
    · rw [if_pos hG] at hfc2full
      exact ⟨resetFields today c1, hfc2full, rfl, rfl, by simp [hc1, resetFields, hcEn],
        by simp [hc1, resetFields], by simp [hc1, resetFields], rfl, rfl⟩
    · rw [if_neg hG] at hfc2full
      have hc1d : c1.last_reset_date = today := by
        have hGf : ((sharedEnabled db1).any
            (fun t => t.id == c.id && t.last_reset_date != today)) = false := by
          simpa using hG
        rw [List.any_eq_false] at hGf
        have := hGf c1 hc1shared
        simp only [Bool.and_eq_true, not_and] at this
        have h2 := this (by simp [hc1])
        simpa using h2
      exact ⟨c1, hfc2full, rfl, rfl, by simp [hc1, hcEn], by simp [hc1],
        by simp [hc1], by simp [hc1, hc0], hc1d⟩
  have hc2mem : c2 ∈ db2.google_tokens := List.mem_of_find?_eq_some hfc2
  -- the selection call
  intro oid uT dL hres
  by_cases hban2 : (isUserBanned now db2.share b).1.banned = true
  · exfalso
    have : getRandomSharedToken now pick (some b) db2 =
        (.bannedResult (isUserBanned now db2.share b).1.banUntil
          (isUserBanned now db2.share b).1.remainingTime
          (isUserBanned now db2.share b).1.reason,
         { db2 with share := (isUserBanned now db2.share b).2 }) := by
      unfold getRandomSharedToken
      simp [hban2]
    rw [this] at hres
    exact absurd hres (by simp)
  · have hbf : (isUserBanned now db2.share b).1.banned = false := by simpa using hban2
    have hgate := getRandomSharedToken_gate_open now pick b db2 hbf
    set db2B : AppDB := { db2 with share := (isUserBanned now db2.share b).2 } with hdb2B
    rw [hgate] at hres ⊢
    have hgt2B : db2B.google_tokens = db2.google_tokens := rfl
    have hse2B : sharedEnabled db2B = sharedEnabled db2 := rfl
    have hfresh2B : ∀ t ∈ sharedEnabled db2B, t.id = c.id → t.last_reset_date = today := by
      intro t ht htid
      have htmem : t ∈ db2.google_tokens := List.mem_of_mem_filter ht
      have : t = c2 := by
        apply List.inj_on_of_nodup_map hnodup2 htmem hc2mem
        show t.id = c2.id
        rw [htid, hc2id]
      rw [this, hc2d]
    obtain ⟨hdb3gt, hdb3users⟩ :=
      selectPhase_ok_db now pick (some b) db2B c.id oid uT dL hres
    set L2 := (selectLoop (some b) (dayOf now) (sharedEnabled db2B) db2B).2 with hL2
    have hfindL2 : findTok L2 c.id = some c2 := by
      rw [hL2, selectLoop_find_fresh (some b) (dayOf now) c.id (sharedEnabled db2B) db2B
        (by rw [← htoday]; exact hfresh2B)]
      rw [findTok_congr_gt db2B db2 rfl]
      exact hfc2
    have hfind3 : findTok (selectPhase now pick (some b) db2B).2 c.id =
        some { c2 with usage_today := c2.usage_today + 1 } := by
      rw [findTok_congr_gt _ (updateGToken L2 c.id
        (fun t => { t with usage_today := t.usage_today + 1 })) hdb3gt]
      rw [findTok_update L2 c.id (fun t => { t with usage_today := t.usage_today + 1 })
        (fun _ => rfl), hfindL2]
      simp [hc2id]
    have husers3 : (selectPhase now pick (some b) db2B).2.users = db.users := by
      rw [hdb3users, hL2,
        (selectLoop_frames (some b) (dayOf now) (sharedEnabled db2B) db2B).1]
      exact husers2
    set c3 : GToken := { c2 with usage_today := c2.usage_today + 1 } with hc3
    have hc3mem : c3 ∈ (selectPhase now pick (some b) db2B).2.google_tokens :=
      List.mem_of_find?_eq_some hfind3
    have hc3shared : c3 ∈ sharedEnabled (selectPhase now pick (some b) db2B).2 := by
      apply List.mem_filter.mpr
      refine ⟨hc3mem, ?_⟩
      rw [husers3]
      have ha := hanyu c3 (by rw [hc3]; exact hc2uid)
      simp only [hc3] at ha ⊢
      simp [hc2sh, hc2en, ha]
    obtain ⟨e, he, he1, he2, he3, he4⟩ :=
      getAllSharedTokensLoop_entry today c3
        (sharedEnabled (selectPhase now pick (some b) db2B).2)
        (selectPhase now pick (some b) db2B).2 hc3shared
    refine ⟨e, he, ?_, ?_⟩
    · rw [he1, hc3, hc2id]
    · rw [he4, lazyReset_fresh today c3 (by rw [hc3]; exact hc2d)]
      rw [hc3]
      simp [hc2lim, hc2u0]

set_option maxRecDepth 100000 in
/-- Witness for `c5_sharing_round_trip`: owner 1's credential 10, shared
with limit 20, reports remaining 20; after borrower 2's selection call picks
it, remaining is 19. -/
theorem c5_sharing_round_trip_witness :
    (∃ e ∈ (getAllSharedTokens (dayOf 604800000) db1W).1,
      e.tokenId = 10 ∧ e.remainingToday = 20) ∧
    (∃ e ∈ (getAllSharedTokens (dayOf 604800000)
        (getRandomSharedToken 604800000 0 (some 2)
          (getAllSharedTokens (dayOf 604800000) db1W).2).2).1,
      e.tokenId = 10 ∧ e.remainingToday = 19) := by
  have h := c5_sharing_round_trip 604800000 0 2 1 0 dbW cW (by decide) (by decide)
    (by decide) (by decide) (by decide) (by decide)
  exact ⟨h.2.1, h.2.2 1 1 20 (by decide)⟩
